import Mathlib

/-!
Verification of the sig11 signal/slot library.

This file gives a shallow embedding of `src/include/sig11/sig11.hpp` — the
`connection`, `signal` and `connection_guard` classes — and proves the
behavioural properties the specification states about them.  Receiver closures
are defunctionalised into a small command language covering the actions the
specification's scenarios exercise (writing the emitted value to a destination
variable and disconnecting a held connection); the `std::map` registry is
modelled as an association list kept sorted by key, matching the map's
iteration order.  Machine integers (`uint64_t` token ids) are naturals reduced
modulo `2 ^ 64` where the C++ arithmetic wraps.
-/

namespace sig11

/-- Token ids are `uint64_t`; we model them as naturals kept below `2 ^ 64`,
applying the remainder wherever the C++ arithmetic would wrap. -/
abbrev token_id := Nat

/-- Number of distinct values of `uint64_t`. -/
def UINT64_CARD : Nat := 2 ^ 64

/-- Embedding of `class connection` (sig11.hpp lines 50-111): a validity flag
plus a token id. -/
structure connection where
  m_valid : Bool
  m_id : token_id
deriving DecidableEq, Repr

/-- Modelled from the spec: the body of `connection::connection(std::nullptr_t)`
is not under `src/`; the header documents it as constructing an invalid
connection.  The token of an invalid connection is unspecified; we model it
as `0`. -/
def connection.null : connection := ⟨false, 0⟩

/-- Modelled from the spec: the body of `connection::operator=(std::nullptr_t)`
is not under `src/`; the header documents a cleared connection as equivalent to
one created from `nullptr`, i.e. invalid.  The token of an invalid connection
is unspecified; we model it as retained. -/
def connection.assignNull (c : connection) : connection := ⟨false, c.m_id⟩

/-- Modelled from the spec: the body of the protected constructor
`connection::connection(token_id)` is not under `src/`; the header documents it
as constructing a valid connection with the given token id. -/
def connection.ofToken (t : token_id) : connection := ⟨true, t⟩

/-- Modelled from the spec: the bodies of the connection move operations are
not under `src/`; spec §4.2 states that move transfers token and validity and
invalidates the source.  The result is (value moved into the target, new state
of the source). -/
def connection.moveFrom (src : connection) : connection × connection :=
  (src, src.assignNull)

/-- Embedding of `connection::operator bool` (lines 93-96). -/
def connection.toBool (c : connection) : Bool := c.m_valid

/-- Embedding of `connection::id` (lines 102-105). -/
def connection.id (c : connection) : token_id := c.m_id

/-- Receiver closures are defunctionalised: the commands a receiver may perform
on the world when invoked with the emitted value.  `setDest` writes the emitted
value into the world's destination variable; `disconnectConn i` calls
`signal::disconnect` on the connection stored in cell `i` (self-disconnection
is the case where cell `i` holds the receiver's own connection). -/
inductive Cmd where
  | setDest : Cmd
  | disconnectConn : Nat → Cmd
deriving DecidableEq, Repr

/-- A receiver closure is the sequence of commands it runs per invocation. -/
abbrev Receiver := List Cmd

/-- Model of `std::map` lookup (`m_listeners.find(id)`). -/
def mapFind? (k : token_id) : List (token_id × Receiver) → Option Receiver
  | [] => none
  | e :: rest => if e.1 = k then some e.2 else mapFind? k rest

/-- Model of `std::map::emplace`: insert keeping keys sorted in ascending
order; when the key is already present the map is unchanged (emplace does not
overwrite). -/
def mapEmplace (k : token_id) (v : Receiver) :
    List (token_id × Receiver) → List (token_id × Receiver)
  | [] => [(k, v)]
  | e :: rest =>
    if k < e.1 then (k, v) :: e :: rest
    else if k = e.1 then e :: rest
    else e :: mapEmplace k v rest

/-- Model of `std::map::erase` of the entry found for key `k`. -/
def mapErase (k : token_id) :
    List (token_id × Receiver) → List (token_id × Receiver)
  | [] => []
  | e :: rest => if e.1 = k then rest else e :: mapErase k rest

/-- Embedding of `class signal<void(args...)>` (lines 157-257): the token
counter and the registry `m_listeners`, modelled as an association list sorted
by key in ascending order, which is exactly the iteration order of the C++
`std::map`.  The mutex and the scratch vector `m_listeners_tmp` carry no
further sequential semantics: the scratch vector is cleared and repopulated on
every emission and is the snapshot taken in `World.emitLog` below. -/
structure signal where
  m_token_id_ctr : Nat
  m_listeners : List (token_id × Receiver)
deriving DecidableEq, Repr

/-- Embedding of the `signal()` constructor (lines 172-176): counter zero, no
receivers. -/
def signal.new : signal := ⟨0, []⟩

/-- Embedding of `signal::connect` (lines 224-230): read the counter as the new
token, post-increment it (wrapping as `uint64_t`), emplace the receiver under
the token, and return a valid connection carrying the token. -/
def signal.connect (s : signal) (r : Receiver) : connection × signal :=
  (connection.ofToken s.m_token_id_ctr,
    { m_token_id_ctr := (s.m_token_id_ctr + 1) % UINT64_CARD,
      m_listeners := mapEmplace s.m_token_id_ctr r s.m_listeners })

/-- Embedding of `signal::disconnect` (lines 242-255): return unchanged when
the connection is invalid or its token has no registry entry; otherwise erase
the entry and clear the connection. -/
def signal.disconnect (s : signal) (conn : connection) : connection × signal :=
  if conn.m_valid then
    match mapFind? conn.m_id s.m_listeners with
    | none => (conn, s)
    | some _ =>
      (conn.assignNull, { s with m_listeners := mapErase conn.m_id s.m_listeners })
  else (conn, s)

/-- The keys of a registry, in iteration order. -/
def keys (l : List (token_id × Receiver)) : List token_id := l.map Prod.fst

/-- Well-formedness of a signal state, maintained by every reachable state:
registry keys are strictly ascending (the `std::map` ordering invariant) and
below the token counter (only already-issued tokens occur). -/
def signal.WF (s : signal) : Prop :=
  List.Chain' (· < ·) (keys s.m_listeners) ∧
    ∀ k ∈ keys s.m_listeners, k < s.m_token_id_ctr

/-- Decision procedure for strict ascending chains of tokens, written to
reduce by computation. -/
def chainLtDec : ∀ l : List token_id, Decidable (List.Chain' (· < ·) l)
  | [] => isTrue List.chain'_nil
  | [a] => isTrue (List.chain'_singleton a)
  | a :: b :: rest =>
    match Nat.decLt a b, chainLtDec (b :: rest) with
    | isTrue h1, isTrue h2 => isTrue (List.chain'_cons.mpr ⟨h1, h2⟩)
    | isFalse h1, _ => isFalse (fun h => h1 (List.chain'_cons.mp h).1)
    | _, isFalse h2 => isFalse (fun h => h2 (List.chain'_cons.mp h).2)

instance (s : signal) : Decidable s.WF :=
  letI : Decidable (List.Chain' (· < ·) (keys s.m_listeners)) :=
    chainLtDec (keys s.m_listeners)
  inferInstanceAs (Decidable (List.Chain' (· < ·) (keys s.m_listeners) ∧
    ∀ k ∈ keys s.m_listeners, k < s.m_token_id_ctr))

/-- The world a receiver can act on during an emission: the signal, a store of
named connection cells (holding the `connection` values the client kept), and
the destination variable used by the specification's scenarios. -/
structure World where
  sig : signal
  conns : Nat → connection
  dest : Nat

/-- Overwrite one connection cell. -/
def setConn (cs : Nat → connection) (i : Nat) (c : connection) :
    Nat → connection :=
  fun j => if j = i then c else cs j

/-- Run one receiver command, given the emitted value `v`. -/
def runCmd (v : Nat) (w : World) : Cmd → World
  | .setDest => { w with dest := v }
  | .disconnectConn cell =>
    let p := signal.disconnect w.sig (w.conns cell)
    { w with sig := p.2, conns := setConn w.conns cell p.1 }

/-- Invoke one receiver closure with the emitted value. -/
def runReceiver (v : Nat) (w : World) (r : Receiver) : World :=
  r.foldl (runCmd v) w

/-- One record of an invocation performed by an emission: the token of the
invoked registry entry, the closure invoked, and the argument passed to it. -/
abbrev Invocation := token_id × Receiver × Nat

/-- The unlocked loop of `signal::operator()` (lines 208-211): invoke every
receiver captured in the snapshot, in snapshot order, appending one invocation
record for each.  Every snapshot entry is invoked exactly once with the emitted
value, independent of registry changes the receivers make meanwhile (the
snapshot keeps its own references for the remainder of the pass). -/
def runSnapshot (v : Nat) :
    World × List Invocation → List (token_id × Receiver) → World × List Invocation
  | st, [] => st
  | (w, log), e :: rest =>
    runSnapshot v (runReceiver v w e.2, log ++ [(e.1, e.2, v)]) rest

/-- Embedding of `signal::operator()` (lines 199-212): capture the snapshot of
the registry under the lock — the registry entries in ascending token order —
then run the unlocked invocation loop.  Returns the final world and the
invocation log of this emission. -/
def World.emitLog (v : Nat) (w : World) : World × List Invocation :=
  runSnapshot v (w, []) w.sig.m_listeners

/-- Emission, forgetting the invocation log. -/
def World.emit (v : Nat) (w : World) : World := (World.emitLog v w).1

/-- The invocation records an emission produces from a given snapshot. -/
def traceOf (snap : List (token_id × Receiver)) (v : Nat) : List Invocation :=
  snap.map (fun e => (e.1, e.2, v))

/-- The trace a single emission produces from the current registry. -/
def signal.emitTrace (s : signal) (v : Nat) : List Invocation :=
  traceOf s.m_listeners v

/-- Driver operations a client can perform on the world between and around
emissions; `connect r i` stores the returned connection in cell `i`, and
`disconnect i` calls `signal::disconnect` on the connection in cell `i`. -/
inductive Op where
  | connect : Receiver → Nat → Op
  | disconnect : Nat → Op
  | emit : Nat → Op
deriving DecidableEq, Repr

/-- One driver operation applied to the world. -/
def World.step (w : World) : Op → World
  | .connect r cell =>
    let p := signal.connect w.sig r
    { w with sig := p.2, conns := setConn w.conns cell p.1 }
  | .disconnect cell =>
    let p := signal.disconnect w.sig (w.conns cell)
    { w with sig := p.2, conns := setConn w.conns cell p.1 }
  | .emit v => World.emit v w

/-- Run a sequence of driver operations. -/
def World.run (w : World) (ops : List Op) : World := ops.foldl World.step w

/-- A fresh world: a newly constructed signal, all cells null, dest zero. -/
def World.fresh : World := ⟨signal.new, fun _ => connection.null, 0⟩

/-- Number of connect operations in a driver sequence. -/
def countConnects : List Op → Nat
  | [] => 0
  | Op.connect _ _ :: ops => countConnects ops + 1
  | _ :: ops => countConnects ops

/-- The tokens handed out by the connect calls in `ops`, in call order. -/
def tokensAssigned (w : World) : List Op → List token_id
  | [] => []
  | op :: ops =>
    match op with
    | Op.connect r _ =>
      (signal.connect w.sig r).1.m_id :: tokensAssigned (w.step op) ops
    | _ => tokensAssigned (w.step op) ops

/-- Embedding of `class connection_guard` (lines 267-399), specialised to the
single signal of the world: `m_signal` records whether the guard's signal
pointer is set (a set pointer refers to the world's signal). -/
structure connection_guard where
  m_connection : connection
  m_signal : Bool
deriving DecidableEq, Repr

/-- Embedding of `connection_guard(std::nullptr_t)` (lines 277-282). -/
def connection_guard.null : connection_guard := ⟨connection.null, false⟩

/-- Embedding of `connection_guard(connection&&, signal_t&)` (lines 293-298):
the connection is moved in and the signal pointer is set. -/
def connection_guard.ofConn (c : connection) : connection_guard := ⟨c, true⟩

/-- Embedding of `connection_guard::operator bool` (lines 366-369). -/
def connection_guard.toBool (g : connection_guard) : Bool :=
  g.m_connection.m_valid

/-- Embedding of `operator==(guard, nullptr)` (lines 414-418). -/
def connection_guard.eqNull (g : connection_guard) : Bool := !g.toBool

/-- Embedding of `connection_guard::release` (lines 388-394): when the signal
pointer is set, null the held connection and clear the pointer; the signal
itself is never touched. -/
def connection_guard.release (g : connection_guard) : connection_guard :=
  if g.m_signal then ⟨g.m_connection.assignNull, false⟩ else g

/-- Embedding of `connection_guard::disconnect` (lines 376-382): when the
signal pointer is set, disconnect the held connection on that signal, then
release. -/
def connection_guard.disconnect (g : connection_guard) (s : signal) :
    connection_guard × signal :=
  if g.m_signal then
    let p := signal.disconnect s g.m_connection
    (connection_guard.release ⟨p.1, true⟩, p.2)
  else (g, s)

/-- Embedding of `connection_guard::operator=(std::nullptr_t)` (lines
343-347): clearing assigns null by disconnecting. -/
def connection_guard.assignNull (g : connection_guard) (s : signal) :
    connection_guard × signal :=
  g.disconnect s

/-- Embedding of the destructor `~connection_guard` (lines 353-356): the state
of the world's signal after the guard is destroyed. -/
def connection_guard.destruct (g : connection_guard) (s : signal) : signal :=
  (g.disconnect s).2

/-- Embedding of `connection_guard::operator=(connection_guard&&)` (lines
329-336): disconnect the current contents, then move the source's connection
and signal pointer over, nulling the source.  The result is (new target state,
new source state, new signal state). -/
def connection_guard.moveAssign (dst src : connection_guard) (s : signal) :
    connection_guard × connection_guard × signal :=
  let p := dst.disconnect s
  let m := connection.moveFrom src.m_connection
  (⟨m.1, src.m_signal⟩, ⟨m.2, false⟩, p.2)

/-- Miniature universe of C++ result types over which the signal template's
declaration-time check is stated. -/
inductive CppType where
  | void : CppType
  | int_ : CppType
  | bool_ : CppType
deriving DecidableEq, Repr

/-- Embedding of `std::is_void<result_t>::value`. -/
def CppType.is_void : CppType → Bool
  | .void => true
  | _ => false

/-- Embedding of the `static_assert` at lines 161-162: the condition under
which instantiating `signal<result_t(arg_ts...)>` is accepted at compile time;
when it is `false` the declaration is rejected before any instance exists. -/
def signal_declaration_ok (result_t : CppType) : Bool := result_t.is_void

/-! Helper lemmas about the registry model. -/

@[simp] theorem keys_nil : keys [] = [] := rfl

@[simp] theorem keys_cons (e : token_id × Receiver) (l : List (token_id × Receiver)) :
    keys (e :: l) = e.1 :: keys l := rfl

@[simp] theorem keys_append (l₁ l₂ : List (token_id × Receiver)) :
    keys (l₁ ++ l₂) = keys l₁ ++ keys l₂ :=
  List.map_append _ _ _

theorem mem_keys_of_mem {e : token_id × Receiver} {l : List (token_id × Receiver)}
    (h : e ∈ l) : e.1 ∈ keys l :=
  List.mem_map_of_mem Prod.fst h

theorem mapFind?_eq_none_iff (k : token_id) (l : List (token_id × Receiver)) :
    mapFind? k l = none ↔ k ∉ keys l := by
  induction l with
  | nil => simp [mapFind?]
  | cons e rest ih =>
    by_cases h : e.1 = k
    · subst h
      simp [mapFind?]
    · have h' : ¬ k = e.1 := fun hh => h hh.symm
      simp [mapFind?, h, h', ih]

theorem mem_keys_of_mapFind?_eq_some {k : token_id} {r : Receiver}
    {l : List (token_id × Receiver)} (h : mapFind? k l = some r) : k ∈ keys l := by
  by_contra hk
  rw [← mapFind?_eq_none_iff] at hk
  rw [h] at hk
  exact Option.noConfusion hk

theorem exists_mapFind?_eq_some {k : token_id} {l : List (token_id × Receiver)}
    (h : k ∈ keys l) : ∃ r, mapFind? k l = some r := by
  cases hf : mapFind? k l with
  | none => exact absurd h ((mapFind?_eq_none_iff k l).mp hf)
  | some r => exact ⟨r, rfl⟩

theorem mapEmplace_append (k : token_id) (v : Receiver)
    (l : List (token_id × Receiver)) (h : ∀ e ∈ l, e.1 < k) :
    mapEmplace k v l = l ++ [(k, v)] := by
  induction l with
  | nil => simp [mapEmplace]
  | cons e rest ih =>
    have he : e.1 < k := h e (List.mem_cons_self e rest)
    have h1 : ¬ k < e.1 := Nat.lt_asymm he
    have h2 : ¬ k = e.1 := ne_of_gt he
    simp [mapEmplace, h1, h2, ih (fun e' he' => h e' (List.mem_cons_of_mem e he'))]

theorem mem_keys_mapEmplace {k' : token_id} (k : token_id) (v : Receiver)
    (l : List (token_id × Receiver)) (h : k' ∈ keys (mapEmplace k v l)) :
    k' = k ∨ k' ∈ keys l := by
  induction l with
  | nil =>
    simp [mapEmplace] at h
    exact Or.inl h
  | cons e rest ih =>
    by_cases h1 : k < e.1
    · simp [mapEmplace, h1] at h
      rcases h with h | h | h
      · exact Or.inl h
      · exact Or.inr (by simp [h])
      · exact Or.inr (by simp [h])
    · by_cases h2 : k = e.1
      · simp [mapEmplace, h1, h2] at h
        rcases h with h | h
        · exact Or.inr (by simp [h])
        · exact Or.inr (by simp [h])
      · simp only [mapEmplace, if_neg h1, if_neg h2, keys_cons, List.mem_cons] at h
        rcases h with h | h
        · exact Or.inr (by simp [h])
        · rcases ih h with h' | h'
          · exact Or.inl h'
          · exact Or.inr (by simp [h'])

theorem mapErase_sublist (k : token_id) (l : List (token_id × Receiver)) :
    List.Sublist (mapErase k l) l := by
  induction l with
  | nil => simp [mapErase]
  | cons e rest ih =>
    by_cases h : e.1 = k
    · simp [mapErase, h]
    · simpa [mapErase, h] using ih.cons₂ e

theorem keys_sublist {l₁ l₂ : List (token_id × Receiver)}
    (h : List.Sublist l₁ l₂) : List.Sublist (keys l₁) (keys l₂) :=
  h.map Prod.fst

theorem not_mem_keys_mapErase (k : token_id) (l : List (token_id × Receiver))
    (hnd : (keys l).Nodup) : k ∉ keys (mapErase k l) := by
  induction l with
  | nil => simp [mapErase]
  | cons e rest ih =>
    rcases List.nodup_cons.mp hnd with ⟨hhead, htail⟩
    by_cases h : e.1 = k
    · have hm : mapErase k (e :: rest) = rest := by simp [mapErase, h]
      rw [hm]
      exact h ▸ hhead
    · have hm : mapErase k (e :: rest) = e :: mapErase k rest := by
        simp [mapErase, h]
      rw [hm, keys_cons]
      intro hmem
      rcases List.mem_cons.mp hmem with hh | hh
      · exact h hh.symm
      · exact ih htail hh

theorem length_mapErase_of_mem (k : token_id) (l : List (token_id × Receiver))
    (h : k ∈ keys l) : (mapErase k l).length + 1 = l.length := by
  induction l with
  | nil => simp at h
  | cons e rest ih =>
    by_cases he : e.1 = k
    · simp [mapErase, he]
    · have h' : k ∈ keys rest := by
        rcases List.mem_cons.mp h with hh | hh
        · exact absurd hh.symm he
        · exact hh
      simp [mapErase, he, ← ih h']

theorem chain'_lt_nodup {l : List token_id} (h : List.Chain' (· < ·) l) :
    l.Nodup :=
  (List.chain'_iff_pairwise.mp h).nodup

theorem chain'_lt_sublist {l₁ l₂ : List token_id} (h : List.Chain' (· < ·) l₂)
    (hs : List.Sublist l₁ l₂) : List.Chain' (· < ·) l₁ :=
  List.chain'_iff_pairwise.mpr ((List.chain'_iff_pairwise.mp h).sublist hs)

/-! Helper lemmas about `signal::disconnect` and `signal::connect`. -/

theorem disconnect_invalid (s : signal) (c : connection) (h : c.m_valid = false) :
    signal.disconnect s c = (c, s) := by
  simp [signal.disconnect, h]

theorem disconnect_not_found (s : signal) (c : connection)
    (h : mapFind? c.m_id s.m_listeners = none) :
    signal.disconnect s c = (c, s) := by
  cases hv : c.m_valid <;> simp [signal.disconnect, hv, h]

theorem disconnect_found (s : signal) (c : connection) (r : Receiver)
    (hv : c.m_valid = true) (hf : mapFind? c.m_id s.m_listeners = some r) :
    signal.disconnect s c =
      (c.assignNull, { s with m_listeners := mapErase c.m_id s.m_listeners }) := by
  simp [signal.disconnect, hv, hf]

theorem disconnect_snd_ctr (s : signal) (c : connection) :
    (signal.disconnect s c).2.m_token_id_ctr = s.m_token_id_ctr := by
  cases hv : c.m_valid
  · simp [signal.disconnect, hv]
  · cases hf : mapFind? c.m_id s.m_listeners <;> simp [signal.disconnect, hv, hf]

theorem disconnect_snd_sublist (s : signal) (c : connection) :
    List.Sublist (signal.disconnect s c).2.m_listeners s.m_listeners := by
  cases hv : c.m_valid
  · simp [signal.disconnect, hv]
  · cases hf : mapFind? c.m_id s.m_listeners <;>
      simp [signal.disconnect, hv, hf, mapErase_sublist]

theorem connect_fst (s : signal) (r : Receiver) :
    (signal.connect s r).1 = connection.ofToken s.m_token_id_ctr := rfl

theorem connect_listeners (s : signal) (r : Receiver)
    (h : ∀ k ∈ keys s.m_listeners, k < s.m_token_id_ctr) :
    (signal.connect s r).2.m_listeners =
      s.m_listeners ++ [(s.m_token_id_ctr, r)] := by
  have := mapEmplace_append s.m_token_id_ctr r s.m_listeners
    (fun e he => h e.1 (mem_keys_of_mem he))
  simpa [signal.connect] using this

theorem WF_new : signal.new.WF := by
  constructor <;> simp [signal.new]

theorem WF_keys_nodup {s : signal} (h : s.WF) : (keys s.m_listeners).Nodup :=
  chain'_lt_nodup h.1

theorem WF_disconnect (s : signal) (c : connection) (h : s.WF) :
    (signal.disconnect s c).2.WF := by
  refine ⟨chain'_lt_sublist h.1 (keys_sublist (disconnect_snd_sublist s c)), ?_⟩
  intro k hk
  rw [disconnect_snd_ctr]
  exact h.2 k ((keys_sublist (disconnect_snd_sublist s c)).subset hk)

theorem WF_connect (s : signal) (r : Receiver) (h : s.WF)
    (hb : s.m_token_id_ctr + 1 < UINT64_CARD) :
    (signal.connect s r).2.WF := by
  have hl := connect_listeners s r h.2
  have hctr : (signal.connect s r).2.m_token_id_ctr = s.m_token_id_ctr + 1 := by
    simp [signal.connect, Nat.mod_eq_of_lt hb]
  constructor
  · rw [hl, keys_append]
    refine List.chain'_append.mpr ⟨h.1, List.chain'_singleton _, ?_⟩
    intro x hx y hy
    simp only [keys] at hy
    simp only [List.map_cons, List.map_nil, List.head?_cons, Option.mem_def,
      Option.some.injEq] at hy
    subst hy
    exact h.2 x (List.mem_of_mem_getLast? hx)
  · intro k hk
    rw [hctr]
    rw [hl, keys_append] at hk
    rcases List.mem_append.mp hk with hk | hk
    · exact Nat.lt_succ_of_lt (h.2 k hk)
    · simp only [keys, List.map_cons, List.map_nil, List.mem_singleton] at hk
      subst hk
      exact Nat.lt_succ_self _

/-! Helper lemmas about emission. -/

theorem runReceiver_nil (v : Nat) (w : World) : runReceiver v w [] = w := rfl

theorem runReceiver_cons (v : Nat) (w : World) (c : Cmd) (cs : List Cmd) :
    runReceiver v w (c :: cs) = runReceiver v (runCmd v w c) cs := rfl

theorem runCmd_ctr (v : Nat) (w : World) (c : Cmd) :
    (runCmd v w c).sig.m_token_id_ctr = w.sig.m_token_id_ctr := by
  cases c with
  | setDest => rfl
  | disconnectConn cell => simp [runCmd, disconnect_snd_ctr]

theorem runCmd_sublist (v : Nat) (w : World) (c : Cmd) :
    List.Sublist (runCmd v w c).sig.m_listeners w.sig.m_listeners := by
  cases c with
  | setDest => exact List.Sublist.refl _
  | disconnectConn cell => simpa [runCmd] using disconnect_snd_sublist w.sig _

theorem runReceiver_ctr (v : Nat) (r : Receiver) : ∀ w : World,
    (runReceiver v w r).sig.m_token_id_ctr = w.sig.m_token_id_ctr := by
  induction r with
  | nil => intro w; rfl
  | cons c cs ih =>
    intro w
    rw [runReceiver_cons, ih, runCmd_ctr]

theorem runReceiver_sublist (v : Nat) (r : Receiver) : ∀ w : World,
    List.Sublist (runReceiver v w r).sig.m_listeners w.sig.m_listeners := by
  induction r with
  | nil => intro w; exact List.Sublist.refl _
  | cons c cs ih =>
    intro w
    rw [runReceiver_cons]
    exact (ih (runCmd v w c)).trans (runCmd_sublist v w c)

theorem runSnapshot_log (v : Nat) : ∀ (snap : List (token_id × Receiver))
    (w : World) (log : List Invocation),
    (runSnapshot v (w, log) snap).2 = log ++ traceOf snap v := by
  intro snap
  induction snap with
  | nil => intro w log; simp [runSnapshot, traceOf]
  | cons e rest ih =>
    intro w log
    rw [runSnapshot, ih]
    simp [traceOf]

theorem runSnapshot_fst_ctr (v : Nat) : ∀ (snap : List (token_id × Receiver))
    (w : World) (log : List Invocation),
    (runSnapshot v (w, log) snap).1.sig.m_token_id_ctr = w.sig.m_token_id_ctr := by
  intro snap
  induction snap with
  | nil => intro w log; rfl
  | cons e rest ih =>
    intro w log
    rw [runSnapshot, ih, runReceiver_ctr]

theorem runSnapshot_fst_sublist (v : Nat) : ∀ (snap : List (token_id × Receiver))
    (w : World) (log : List Invocation),
    List.Sublist (runSnapshot v (w, log) snap).1.sig.m_listeners
      w.sig.m_listeners := by
  intro snap
  induction snap with
  | nil => intro w log; exact List.Sublist.refl _
  | cons e rest ih =>
    intro w log
    rw [runSnapshot]
    exact (ih _ _).trans (runReceiver_sublist v e.2 w)

theorem emitLog_snd (v : Nat) (w : World) :
    (World.emitLog v w).2 = w.sig.emitTrace v := by
  rw [World.emitLog, runSnapshot_log]
  simp [signal.emitTrace]

theorem emit_ctr (v : Nat) (w : World) :
    (World.emit v w).sig.m_token_id_ctr = w.sig.m_token_id_ctr := by
  rw [World.emit, World.emitLog, runSnapshot_fst_ctr]

theorem emit_sublist (v : Nat) (w : World) :
    List.Sublist (World.emit v w).sig.m_listeners w.sig.m_listeners := by
  rw [World.emit, World.emitLog]
  exact runSnapshot_fst_sublist v _ w []

theorem keys_traceOf (snap : List (token_id × Receiver)) (v : Nat) :
    (traceOf snap v).map (fun e => e.1) = keys snap := by
  simp [traceOf, keys, List.map_map]

theorem mem_traceOf_iff (snap : List (token_id × Receiver)) (v : Nat)
    (t : token_id) (r : Receiver) (vv : Nat) :
    (t, r, vv) ∈ traceOf snap v ↔ ((t, r) ∈ snap ∧ vv = v) := by
  constructor
  · intro h
    obtain ⟨e, he, heq⟩ := List.mem_map.mp h
    cases heq
    exact ⟨he, rfl⟩
  · rintro ⟨hm, rfl⟩
    exact List.mem_map.mpr ⟨(t, r), hm, rfl⟩

theorem snd_snd_of_mem_traceOf {snap : List (token_id × Receiver)} {v : Nat}
    {e : Invocation} (h : e ∈ traceOf snap v) : e.2.2 = v := by
  obtain ⟨a, _, rfl⟩ := List.mem_map.mp h
  rfl

/-! Helper lemmas about driver runs. -/

theorem run_nil (w : World) : World.run w [] = w := rfl

theorem run_cons (w : World) (op : Op) (ops : List Op) :
    World.run w (op :: ops) = World.run (w.step op) ops := rfl

theorem step_connect_ctr (w : World) (r : Receiver) (cell : Nat)
    (hb : w.sig.m_token_id_ctr + 1 < UINT64_CARD) :
    (w.step (Op.connect r cell)).sig.m_token_id_ctr =
      w.sig.m_token_id_ctr + 1 := by
  simp [World.step, signal.connect, Nat.mod_eq_of_lt hb]

theorem step_connect_listeners (w : World) (r : Receiver) (cell : Nat) :
    (w.step (Op.connect r cell)).sig.m_listeners =
      mapEmplace w.sig.m_token_id_ctr r w.sig.m_listeners := rfl

theorem step_disconnect_ctr (w : World) (cell : Nat) :
    (w.step (Op.disconnect cell)).sig.m_token_id_ctr =
      w.sig.m_token_id_ctr :=
  disconnect_snd_ctr w.sig (w.conns cell)

theorem step_disconnect_sublist (w : World) (cell : Nat) :
    List.Sublist (w.step (Op.disconnect cell)).sig.m_listeners
      w.sig.m_listeners :=
  disconnect_snd_sublist w.sig (w.conns cell)

theorem run_not_mem_keys (t : token_id) : ∀ (ops : List Op) (w : World),
    t < w.sig.m_token_id_ctr → t ∉ keys w.sig.m_listeners →
    w.sig.m_token_id_ctr + countConnects ops < UINT64_CARD →
    t < (World.run w ops).sig.m_token_id_ctr ∧
      t ∉ keys (World.run w ops).sig.m_listeners := by
  intro ops
  induction ops with
  | nil =>
    intro w h1 h2 _
    exact ⟨h1, h2⟩
  | cons op ops ih =>
    intro w h1 h2 hb
    rw [run_cons]
    cases op with
    | connect r cell =>
      have hcc : countConnects (Op.connect r cell :: ops) =
          countConnects ops + 1 := rfl
      have hb1 : w.sig.m_token_id_ctr + 1 < UINT64_CARD := by
        rw [hcc] at hb; omega
      have hctr := step_connect_ctr w r cell hb1
      refine ih _ ?_ ?_ ?_
      · rw [hctr]
        exact Nat.lt_succ_of_lt h1
      · rw [step_connect_listeners]
        intro hm
        rcases mem_keys_mapEmplace _ _ _ hm with hEq | hMem
        · exact absurd hEq (Nat.ne_of_lt h1)
        · exact h2 hMem
      · rw [hctr]
        rw [hcc] at hb
        omega
    | disconnect cell =>
      refine ih _ ?_ ?_ ?_
      · rw [step_disconnect_ctr]; exact h1
      · intro hm
        exact h2 ((keys_sublist (step_disconnect_sublist w cell)).subset hm)
      · rw [step_disconnect_ctr]
        have hcc : countConnects (Op.disconnect cell :: ops) =
            countConnects ops := rfl
        rw [hcc] at hb
        exact hb
    | emit v =>
      refine ih _ ?_ ?_ ?_
      · rw [show (w.step (Op.emit v)) = World.emit v w from rfl, emit_ctr]
        exact h1
      · intro hm
        exact h2 ((keys_sublist (emit_sublist v w)).subset hm)
      · rw [show (w.step (Op.emit v)) = World.emit v w from rfl, emit_ctr]
        have hcc : countConnects (Op.emit v :: ops) = countConnects ops := rfl
        rw [hcc] at hb
        exact hb

theorem run_ctr : ∀ (ops : List Op) (w : World),
    w.sig.m_token_id_ctr + countConnects ops < UINT64_CARD →
    (World.run w ops).sig.m_token_id_ctr =
      w.sig.m_token_id_ctr + countConnects ops := by
  intro ops
  induction ops with
  | nil =>
    intro w _
    simp [World.run, countConnects]
  | cons op ops ih =>
    intro w hb
    rw [run_cons]
    cases op with
    | connect r cell =>
      have hcc : countConnects (Op.connect r cell :: ops) =
          countConnects ops + 1 := rfl
      have hb1 : w.sig.m_token_id_ctr + 1 < UINT64_CARD := by
        rw [hcc] at hb; omega
      have hctr := step_connect_ctr w r cell hb1
      rw [ih _ (by rw [hctr]; rw [hcc] at hb; omega), hctr, hcc]
      omega
    | disconnect cell =>
      have hcc : countConnects (Op.disconnect cell :: ops) =
          countConnects ops := rfl
      rw [ih _ (by rw [step_disconnect_ctr]; rw [hcc] at hb; exact hb),
        step_disconnect_ctr, hcc]
    | emit v =>
      have hcc : countConnects (Op.emit v :: ops) = countConnects ops := rfl
      have he : (w.step (Op.emit v)) = World.emit v w := rfl
      rw [ih _ (by rw [he, emit_ctr]; rw [hcc] at hb; exact hb), he, emit_ctr,
        hcc]

theorem tokensAssigned_eq_range' : ∀ (ops : List Op) (w : World),
    w.sig.m_token_id_ctr + countConnects ops < UINT64_CARD →
    tokensAssigned w ops =
      List.range' w.sig.m_token_id_ctr (countConnects ops) := by
  intro ops
  induction ops with
  | nil =>
    intro w _
    rfl
  | cons op ops ih =>
    intro w hb
    cases op with
    | connect r cell =>
      have hcc : countConnects (Op.connect r cell :: ops) =
          countConnects ops + 1 := rfl
      have hb1 : w.sig.m_token_id_ctr + 1 < UINT64_CARD := by
        rw [hcc] at hb; omega
      have hctr := step_connect_ctr w r cell hb1
      have hih := ih (w.step (Op.connect r cell))
        (by rw [hctr]; rw [hcc] at hb; omega)
      rw [hctr] at hih
      simp only [tokensAssigned, hih, hcc, List.range'_succ]
      rfl
    | disconnect cell =>
      have hcc : countConnects (Op.disconnect cell :: ops) =
          countConnects ops := rfl
      have hih := ih (w.step (Op.disconnect cell))
        (by rw [step_disconnect_ctr]; rw [hcc] at hb; exact hb)
      rw [step_disconnect_ctr] at hih
      simp only [tokensAssigned, hih, hcc]
    | emit v =>
      have hcc : countConnects (Op.emit v :: ops) = countConnects ops := rfl
      have he : (w.step (Op.emit v)) = World.emit v w := rfl
      have hih := ih (w.step (Op.emit v))
        (by rw [he, emit_ctr]; rw [hcc] at hb; exact hb)
      rw [he, emit_ctr] at hih
      simp only [tokensAssigned, hcc]
      rw [he]
      exact hih

/-! The claims. -/

/-- C1: for a signal with receivers registered (and not disconnected), emitting
a value `v` invokes exactly the currently-registered receivers, each exactly
once, in ascending token order (which equals connection order), passing `v` to
each: the emission's invocation log is exactly the registry in iteration
order, its token sequence is strictly ascending and duplicate-free, and every
logged invocation carries `v`. -/
theorem emission_in_token_order (w : World) (v : Nat) (h : w.sig.WF) :
    (World.emitLog v w).2 = w.sig.m_listeners.map (fun e => (e.1, e.2, v)) ∧
    List.Chain' (· < ·) ((World.emitLog v w).2.map (fun e => e.1)) ∧
    ((World.emitLog v w).2.map (fun e => e.1)).Nodup ∧
    (∀ e ∈ (World.emitLog v w).2, e.2.2 = v) := by
  have hlog := emitLog_snd v w
  have hkeys : (World.emitLog v w).2.map (fun e => e.1) =
      keys w.sig.m_listeners := by
    rw [hlog]
    exact keys_traceOf _ _
  refine ⟨?_, ?_, ?_, ?_⟩
  · rw [hlog]
    rfl
  · rw [hkeys]
    exact h.1
  · rw [hkeys]
    exact chain'_lt_nodup h.1
  · intro e he
    rw [hlog] at he
    exact snd_snd_of_mem_traceOf he

/-- Witness for C1: three receivers R1, R2, R3 connected in that order to a
fresh signal, emitted with value 42; the well-formedness hypothesis holds and
the resulting invocation log is R1, R2, R3 in order, each once, with 42. -/
theorem emission_in_token_order_witness :
    (World.run World.fresh [Op.connect [] 0, Op.connect [Cmd.setDest] 1,
        Op.connect [Cmd.setDest, Cmd.setDest] 2]).sig.WF ∧
    (World.emitLog 42 (World.run World.fresh [Op.connect [] 0,
        Op.connect [Cmd.setDest] 1,
        Op.connect [Cmd.setDest, Cmd.setDest] 2])).2 =
      [(0, [], 42), (1, [Cmd.setDest], 42),
        (2, [Cmd.setDest, Cmd.setDest], 42)] := by
  refine ⟨by decide, ?_⟩
  have h := emission_in_token_order (World.run World.fresh [Op.connect [] 0,
    Op.connect [Cmd.setDest] 1, Op.connect [Cmd.setDest, Cmd.setDest] 2]) 42
    (by decide)
  rw [h.1]
  rfl

/-- C2: a receiver that disconnects its own connection during its invocation
still completes that invocation and is absent from all later emissions: with
receiver `f = [setDest, disconnectConn 0]` connected to a fresh signal (its
connection kept in cell 0), emitting `v1` runs `f` to completion (`dest = v1`),
leaves `f`'s connection invalid and the registry empty, the emission invoked
exactly `f` once with `v1`, and a subsequent emission of `v2` invokes nothing
and leaves `dest` unchanged at `v1`. -/
theorem self_disconnect_completes_then_absent (v1 v2 : Nat) :
    (World.run World.fresh
        [Op.connect [Cmd.setDest, Cmd.disconnectConn 0] 0, Op.emit v1]).dest
      = v1 ∧
    ((World.run World.fresh
        [Op.connect [Cmd.setDest, Cmd.disconnectConn 0] 0,
          Op.emit v1]).conns 0).m_valid = false ∧
    (World.run World.fresh
        [Op.connect [Cmd.setDest, Cmd.disconnectConn 0] 0,
          Op.emit v1]).sig.m_listeners = [] ∧
    (World.emitLog v1 (World.run World.fresh
        [Op.connect [Cmd.setDest, Cmd.disconnectConn 0] 0])).2
      = [(0, [Cmd.setDest, Cmd.disconnectConn 0], v1)] ∧
    (World.run World.fresh
        [Op.connect [Cmd.setDest, Cmd.disconnectConn 0] 0, Op.emit v1,
          Op.emit v2]).dest = v1 ∧
    (World.emitLog v2 (World.run World.fresh
        [Op.connect [Cmd.setDest, Cmd.disconnectConn 0] 0, Op.emit v1])).2
      = [] :=
  ⟨rfl, rfl, rfl, rfl, rfl, rfl⟩

/-- C4: `connect` always succeeds and returns a valid connection carrying the
newly assigned token; over any operation sequence whose number of connects does
not exhaust the 64-bit token space, the assigned tokens are exactly the
consecutive naturals in connect order, hence strictly increasing, unique, and
never reused after their receiver is removed. -/
theorem connect_tokens_strictly_increasing (ops : List Op)
    (hb : countConnects ops < UINT64_CARD) :
    (∀ (s : signal) (r : Receiver),
        (signal.connect s r).1.m_valid = true ∧
        (signal.connect s r).1.m_id = s.m_token_id_ctr) ∧
    tokensAssigned World.fresh ops = List.range (countConnects ops) ∧
    List.Chain' (· < ·) (tokensAssigned World.fresh ops) ∧
    (tokensAssigned World.fresh ops).Nodup := by
  have hfr : World.fresh.sig.m_token_id_ctr = 0 := rfl
  have hb0 : World.fresh.sig.m_token_id_ctr + countConnects ops <
      UINT64_CARD := by
    rw [hfr]
    omega
  have hr := tokensAssigned_eq_range' ops World.fresh hb0
  rw [hfr] at hr
  refine ⟨fun s r => ⟨rfl, rfl⟩, ?_, ?_, ?_⟩
  · rw [hr, ← List.range_eq_range']
  · rw [hr]
    exact List.chain'_iff_pairwise.mpr (List.pairwise_lt_range' 0 _)
  · rw [hr]
    exact List.nodup_range' 0 _

/-- Witness for C4: a concrete operation sequence with three connects
interleaved with an emission and a disconnect; the bound holds and the tokens
handed out are 0, 1, 2. -/
theorem connect_tokens_strictly_increasing_witness :
    countConnects [Op.connect [] 0, Op.emit 7, Op.connect [] 1,
        Op.disconnect 0, Op.connect [] 2] < UINT64_CARD ∧
    tokensAssigned World.fresh [Op.connect [] 0, Op.emit 7, Op.connect [] 1,
        Op.disconnect 0, Op.connect [] 2] = [0, 1, 2] := by
  refine ⟨by decide, ?_⟩
  have h := (connect_tokens_strictly_increasing [Op.connect [] 0, Op.emit 7,
    Op.connect [] 1, Op.disconnect 0, Op.connect [] 2] (by decide)).2.1
  rw [h]
  rfl

/-- C10: declaring a signal with a non-void result type is rejected at
definition/compile time: the static assert's condition accepts a result type
iff it is `void`, and rejects each non-void type. -/
theorem nonvoid_result_rejected :
    (∀ r : CppType, signal_declaration_ok r = true ↔ r = CppType.void) ∧
    signal_declaration_ok CppType.int_ = false ∧
    signal_declaration_ok CppType.bool_ = false ∧
    signal_declaration_ok CppType.void = true := by
  refine ⟨?_, rfl, rfl, rfl⟩
  intro r
  cases r <;> simp [signal_declaration_ok, CppType.is_void]

/-- C3: disconnect is idempotent.  For a valid, registered connection `c`:
after `disconnect`, `c` is invalid and its registry entry erased; calling
`disconnect` again on the result is a no-op; disconnecting any invalid
connection is a no-op on registry and connection alike; and the erased token
never appears in the invocation log of any later emission, over any driver run
whose connects do not exhaust the token space. -/
theorem disconnect_idempotent (s : signal) (c : connection) (r : Receiver)
    (hWF : s.WF) (hv : c.m_valid = true)
    (hf : mapFind? c.m_id s.m_listeners = some r) :
    (signal.disconnect s c).1.m_valid = false ∧
    (signal.disconnect s c).2.m_listeners = mapErase c.m_id s.m_listeners ∧
    c.m_id ∉ keys (signal.disconnect s c).2.m_listeners ∧
    signal.disconnect (signal.disconnect s c).2 (signal.disconnect s c).1 =
      ((signal.disconnect s c).1, (signal.disconnect s c).2) ∧
    (∀ (s2 : signal) (c2 : connection), c2.m_valid = false →
      signal.disconnect s2 c2 = (c2, s2)) ∧
    (∀ (cs : Nat → connection) (d : Nat) (ops : List Op),
      s.m_token_id_ctr + countConnects ops < UINT64_CARD →
      ∀ (r2 : Receiver) (v2 : Nat),
        ((c.m_id, r2, v2) : Invocation) ∉
          (World.run ⟨(signal.disconnect s c).2, cs, d⟩ ops).sig.emitTrace v2) := by
  have hd := disconnect_found s c r hv hf
  have h1 : (signal.disconnect s c).1 = c.assignNull := by rw [hd]
  have h2 : (signal.disconnect s c).2.m_listeners =
      mapErase c.m_id s.m_listeners := by rw [hd]
  have hnotmem : c.m_id ∉ keys (mapErase c.m_id s.m_listeners) :=
    not_mem_keys_mapErase _ _ (WF_keys_nodup hWF)
  refine ⟨by rw [h1]; rfl, h2, by rw [h2]; exact hnotmem, ?_, ?_, ?_⟩
  · rw [h1]
    exact disconnect_invalid _ _ rfl
  · intro s2 c2 hh
    exact disconnect_invalid s2 c2 hh
  · intro cs d ops hbound r2 v2 hmem
    have hctr : (⟨(signal.disconnect s c).2, cs, d⟩ : World).sig.m_token_id_ctr
        = s.m_token_id_ctr := disconnect_snd_ctr s c
    have hid_lt : c.m_id <
        (⟨(signal.disconnect s c).2, cs, d⟩ : World).sig.m_token_id_ctr := by
      rw [hctr]
      exact hWF.2 _ (mem_keys_of_mapFind?_eq_some hf)
    have hid_nm : c.m_id ∉
        keys (⟨(signal.disconnect s c).2, cs, d⟩ : World).sig.m_listeners := by
      show c.m_id ∉ keys (signal.disconnect s c).2.m_listeners
      rw [h2]
      exact hnotmem
    have hrun := run_not_mem_keys c.m_id ops ⟨(signal.disconnect s c).2, cs, d⟩
      hid_lt hid_nm (by rw [hctr]; exact hbound)
    rw [signal.emitTrace] at hmem
    rcases (mem_traceOf_iff _ _ _ _ _).mp hmem with ⟨hm, _⟩
    exact hrun.2 (mem_keys_of_mem hm)

/-- Witness for C3 at a concrete registry with two receivers: disconnecting
token 0 invalidates the connection, erases exactly its entry, is a no-op when
repeated, and token 0 does not appear in the log of a later emission. -/
theorem disconnect_idempotent_witness :
    ((⟨2, [(0, []), (1, [Cmd.setDest])]⟩ : signal).WF ∧
      ((⟨true, 0⟩ : connection).m_valid = true) ∧
      mapFind? 0 [(0, []), (1, [Cmd.setDest])] = some []) ∧
    (signal.disconnect ⟨2, [(0, []), (1, [Cmd.setDest])]⟩
        ⟨true, 0⟩).1.m_valid = false ∧
    (signal.disconnect ⟨2, [(0, []), (1, [Cmd.setDest])]⟩
        ⟨true, 0⟩).2.m_listeners = [(1, [Cmd.setDest])] ∧
    (((0 : token_id), ([] : Receiver), (9 : Nat)) : Invocation) ∉
      (World.run ⟨(signal.disconnect ⟨2, [(0, []), (1, [Cmd.setDest])]⟩
          ⟨true, 0⟩).2, fun _ => connection.null, 0⟩
        [Op.emit 9]).sig.emitTrace 9 := by
  have h := disconnect_idempotent ⟨2, [(0, []), (1, [Cmd.setDest])]⟩ ⟨true, 0⟩
    [] (by decide) rfl rfl
  refine ⟨⟨by decide, rfl, rfl⟩, h.1, ?_, ?_⟩
  · rw [h.2.1]
    rfl
  · exact h.2.2.2.2.2 (fun _ => connection.null) 0 [Op.emit 9] (by decide) [] 9

/-- C5: registry changes made after an in-flight emission has captured its
snapshot do not affect that emission but are visible to the next one: a
receiver connected after the capture is absent from the captured snapshot's
invocation trace but present in the next emission's trace, and a receiver
disconnected after the capture is still invoked exactly once by the captured
trace, is gone from the registry, and appears in no later emission trace. -/
theorem snapshot_isolation (w : World) (v vNext : Nat) (r : Receiver)
    (c0 : connection) (r0 : Receiver) (hWF : w.sig.WF)
    (hv0 : c0.m_valid = true) (hmem : (c0.m_id, r0) ∈ w.sig.m_listeners) :
    ((signal.connect w.sig r).1.m_id ∉
        (traceOf w.sig.m_listeners v).map (fun e => e.1) ∧
      ((signal.connect w.sig r).1.m_id, r, vNext) ∈
        signal.emitTrace (signal.connect w.sig r).2 vNext) ∧
    ((c0.m_id, r0, v) ∈ traceOf w.sig.m_listeners v ∧
      ((traceOf w.sig.m_listeners v).map (fun e => e.1)).count c0.m_id = 1 ∧
      c0.m_id ∉ keys (signal.disconnect w.sig c0).2.m_listeners ∧
      (∀ (r2 : Receiver) (v2 : Nat),
        ((c0.m_id, r2, v2) : Invocation) ∉
          signal.emitTrace (signal.disconnect w.sig c0).2 v2)) := by
  constructor
  · constructor
    · rw [keys_traceOf]
      intro hmm
      exact absurd (hWF.2 _ hmm) (lt_irrefl _)
    · have hl := connect_listeners w.sig r hWF.2
      rw [signal.emitTrace]
      apply (mem_traceOf_iff _ _ _ _ _).mpr
      refine ⟨?_, rfl⟩
      rw [hl]
      exact List.mem_append_right _ (List.mem_singleton.mpr rfl)
  · obtain ⟨rf, hfind⟩ := exists_mapFind?_eq_some (mem_keys_of_mem hmem)
    have hd := disconnect_found w.sig c0 rf hv0 hfind
    have hkeys' : (signal.disconnect w.sig c0).2.m_listeners =
        mapErase c0.m_id w.sig.m_listeners := by rw [hd]
    have hnm := not_mem_keys_mapErase c0.m_id w.sig.m_listeners
      (WF_keys_nodup hWF)
    refine ⟨(mem_traceOf_iff _ _ _ _ _).mpr ⟨hmem, rfl⟩, ?_, ?_, ?_⟩
    · rw [keys_traceOf]
      exact List.count_eq_one_of_mem (WF_keys_nodup hWF) (mem_keys_of_mem hmem)
    · rw [hkeys']
      exact hnm
    · intro r2 v2 hmm
      rw [signal.emitTrace] at hmm
      rcases (mem_traceOf_iff _ _ _ _ _).mp hmm with ⟨hm2, _⟩
      have hk2 := mem_keys_of_mem hm2
      rw [hkeys'] at hk2
      exact hnm hk2

/-- Witness for C5 at a one-receiver registry: connecting after the capture
assigns token 1, absent from the captured trace but invoked by the next
emission; disconnecting token 0 after the capture leaves it in the captured
trace once and out of the registry afterwards. -/
theorem snapshot_isolation_witness :
    ((⟨1, [(0, [])]⟩ : signal).WF ∧
      ((⟨true, 0⟩ : connection).m_valid = true) ∧
      (((0 : token_id), ([] : Receiver)) ∈
        [((0 : token_id), ([] : Receiver))])) ∧
    (signal.connect (⟨1, [(0, [])]⟩ : signal) [Cmd.setDest]).1.m_id ∉
      (traceOf [(0, [])] 10).map (fun e => e.1) ∧
    ((signal.connect (⟨1, [(0, [])]⟩ : signal) [Cmd.setDest]).1.m_id,
        [Cmd.setDest], 11) ∈
      signal.emitTrace (signal.connect (⟨1, [(0, [])]⟩ : signal)
        [Cmd.setDest]).2 11 ∧
    (((0 : token_id), ([] : Receiver), (10 : Nat)) ∈
      traceOf [((0 : token_id), ([] : Receiver))] 10) ∧
    (0 : token_id) ∉ keys (signal.disconnect (⟨1, [(0, [])]⟩ : signal)
      ⟨true, 0⟩).2.m_listeners := by
  have h := snapshot_isolation ⟨⟨1, [(0, [])]⟩, fun _ => connection.null, 0⟩
    10 11 [Cmd.setDest] ⟨true, 0⟩ [] (by decide) rfl (by decide)
  exact ⟨⟨by decide, rfl, by decide⟩, h.1.1, h.1.2, h.2.1, h.2.2.2.1⟩

/-- C6: a connection guard disconnects its held connection at most once:
destruction, null-assignment, being move-assigned over, and explicit
`disconnect()` each apply one `signal::disconnect` of the held connection and
leave the guard empty (signal pointer cleared, connection invalid), and each
of these operations on an empty guard is a no-op that touches neither guard
nor signal. -/
theorem guard_disconnects_at_most_once (g : connection_guard) (s : signal)
    (hg : g.m_signal = true) :
    (g.disconnect s).1.m_signal = false ∧
    (g.disconnect s).1.m_connection.m_valid = false ∧
    (g.disconnect s).2 = (signal.disconnect s g.m_connection).2 ∧
    g.assignNull s = g.disconnect s ∧
    g.destruct s = (g.disconnect s).2 ∧
    (∀ src : connection_guard,
      (connection_guard.moveAssign g src s).2.2 = (g.disconnect s).2) ∧
    (∀ (g2 : connection_guard) (s2 : signal), g2.m_signal = false →
      g2.disconnect s2 = (g2, s2)) ∧
    connection_guard.disconnect (g.disconnect s).1 (g.disconnect s).2 =
      ((g.disconnect s).1, (g.disconnect s).2) := by
  have hd : g.disconnect s =
      (⟨(signal.disconnect s g.m_connection).1.assignNull, false⟩,
        (signal.disconnect s g.m_connection).2) := by
    simp [connection_guard.disconnect, hg, connection_guard.release]
  refine ⟨by rw [hd], by rw [hd]; rfl, by rw [hd], rfl, rfl, fun src => rfl,
    ?_, ?_⟩
  · intro g2 s2 h2
    simp [connection_guard.disconnect, h2]
  · rw [hd]
    simp [connection_guard.disconnect]

/-- Witness for C6 at a guard holding the registered connection for token 0:
its disconnect empties the guard and erases the entry, and a second disconnect
on the now-empty guard changes nothing. -/
theorem guard_disconnects_at_most_once_witness :
    ((⟨⟨true, 0⟩, true⟩ : connection_guard).m_signal = true) ∧
    (connection_guard.disconnect ⟨⟨true, 0⟩, true⟩
        (⟨1, [(0, [])]⟩ : signal)).1.m_signal = false ∧
    (connection_guard.disconnect ⟨⟨true, 0⟩, true⟩
        (⟨1, [(0, [])]⟩ : signal)).1.m_connection.m_valid = false ∧
    (connection_guard.disconnect ⟨⟨true, 0⟩, true⟩
        (⟨1, [(0, [])]⟩ : signal)).2 =
      (signal.disconnect (⟨1, [(0, [])]⟩ : signal) ⟨true, 0⟩).2 ∧
    connection_guard.disconnect
        (connection_guard.disconnect ⟨⟨true, 0⟩, true⟩
          (⟨1, [(0, [])]⟩ : signal)).1
        (connection_guard.disconnect ⟨⟨true, 0⟩, true⟩
          (⟨1, [(0, [])]⟩ : signal)).2 =
      ((connection_guard.disconnect ⟨⟨true, 0⟩, true⟩
          (⟨1, [(0, [])]⟩ : signal)).1,
        (connection_guard.disconnect ⟨⟨true, 0⟩, true⟩
          (⟨1, [(0, [])]⟩ : signal)).2) := by
  have h := guard_disconnects_at_most_once ⟨⟨true, 0⟩, true⟩
    (⟨1, [(0, [])]⟩ : signal) rfl
  exact ⟨rfl, h.1, h.2.1, h.2.2.1, h.2.2.2.2.2.2.2⟩

/-- C7: for a guard holding a live connection whose token is registered,
`release()` leaves the guard empty (boolean conversion false, equal to null)
without touching the registry: the receiver is still invoked by every
subsequent emission of the unchanged signal, including after the released
guard is destroyed (whose destructor then leaves the signal unchanged). -/
theorem release_leaves_receiver_registered (g : connection_guard) (s : signal)
    (r : Receiver) (hg : g.m_signal = true)
    (_hv : g.m_connection.m_valid = true)
    (hm : (g.m_connection.m_id, r) ∈ s.m_listeners) :
    g.release.toBool = false ∧
    g.release.eqNull = true ∧
    g.release.m_signal = false ∧
    (∀ v : Nat, ((g.m_connection.m_id, r, v) : Invocation) ∈ s.emitTrace v) ∧
    connection_guard.disconnect g.release s = (g.release, s) ∧
    g.release.destruct s = s ∧
    (∀ v : Nat, ((g.m_connection.m_id, r, v) : Invocation) ∈
      (g.release.destruct s).emitTrace v) := by
  have hr : g.release = ⟨g.m_connection.assignNull, false⟩ := by
    simp [connection_guard.release, hg]
  have hnoop : connection_guard.disconnect g.release s = (g.release, s) := by
    rw [hr]
    simp [connection_guard.disconnect]
  have hds : g.release.destruct s = s := by
    rw [connection_guard.destruct, hnoop]
  refine ⟨by rw [hr]; rfl, by rw [hr]; rfl, by rw [hr], ?_, hnoop, hds, ?_⟩
  · intro v
    exact (mem_traceOf_iff _ _ _ _ _).mpr ⟨hm, rfl⟩
  · intro v
    rw [hds]
    exact (mem_traceOf_iff _ _ _ _ _).mpr ⟨hm, rfl⟩

/-- Witness for C7 at a guard holding the registered connection for token 0:
release empties the guard, the receiver still appears in the emission trace,
and destroying the released guard leaves the signal unchanged. -/
theorem release_leaves_receiver_registered_witness :
    ((⟨⟨true, 0⟩, true⟩ : connection_guard).m_signal = true ∧
      (⟨⟨true, 0⟩, true⟩ : connection_guard).m_connection.m_valid = true ∧
      (((0 : token_id), ([Cmd.setDest] : Receiver)) ∈
        [((0 : token_id), ([Cmd.setDest] : Receiver))])) ∧
    (⟨⟨true, 0⟩, true⟩ : connection_guard).release.toBool = false ∧
    (((0 : token_id), ([Cmd.setDest] : Receiver), (5 : Nat)) : Invocation) ∈
      signal.emitTrace (⟨1, [(0, [Cmd.setDest])]⟩ : signal) 5 ∧
    connection_guard.destruct
        (⟨⟨true, 0⟩, true⟩ : connection_guard).release
        (⟨1, [(0, [Cmd.setDest])]⟩ : signal) =
      (⟨1, [(0, [Cmd.setDest])]⟩ : signal) := by
  have h := release_leaves_receiver_registered ⟨⟨true, 0⟩, true⟩
    (⟨1, [(0, [Cmd.setDest])]⟩ : signal) [Cmd.setDest] rfl rfl (by decide)
  exact ⟨⟨rfl, rfl, by decide⟩, h.1, h.2.2.2.1 5, h.2.2.2.2.2.1⟩

/-- C8: constructing a guard from an invalid connection and a signal yields a
guard whose boolean conversion is false and which compares equal to null, but
which still holds the signal reference until explicitly nulled; its
`disconnect()` leaves the signal's registry unchanged and only then clears the
signal reference. -/
theorem guard_from_invalid_connection (c : connection) (s : signal)
    (hv : c.m_valid = false) :
    (connection_guard.ofConn c).toBool = false ∧
    (connection_guard.ofConn c).eqNull = true ∧
    (connection_guard.ofConn c).m_signal = true ∧
    ((connection_guard.ofConn c).disconnect s).2 = s ∧
    ((connection_guard.ofConn c).disconnect s).1.m_signal = false ∧
    ((connection_guard.ofConn c).assignNull s).2 = s := by
  have hnull := disconnect_invalid s c hv
  have hd : (connection_guard.ofConn c).disconnect s =
      (⟨c.assignNull, false⟩, s) := by
    simp [connection_guard.disconnect, connection_guard.ofConn,
      connection_guard.release, hnull]
  refine ⟨by simp [connection_guard.toBool, connection_guard.ofConn, hv],
    by simp [connection_guard.eqNull, connection_guard.toBool,
      connection_guard.ofConn, hv],
    rfl, by rw [hd], by rw [hd], ?_⟩
  show ((connection_guard.ofConn c).disconnect s).2 = s
  rw [hd]

/-- Witness for C8 at the invalid connection with token 7 and a one-entry
registry: the guard is empty-looking yet holds the signal reference, and its
disconnect leaves the registry unchanged. -/
theorem guard_from_invalid_connection_witness :
    ((⟨false, 7⟩ : connection).m_valid = false) ∧
    (connection_guard.ofConn ⟨false, 7⟩).toBool = false ∧
    (connection_guard.ofConn ⟨false, 7⟩).m_signal = true ∧
    ((connection_guard.ofConn ⟨false, 7⟩).disconnect
        (⟨1, [(0, [])]⟩ : signal)).2 = (⟨1, [(0, [])]⟩ : signal) := by
  have h := guard_from_invalid_connection ⟨false, 7⟩
    (⟨1, [(0, [])]⟩ : signal) rfl
  exact ⟨rfl, h.1, h.2.2.1, h.2.2.2.1⟩

/-- C9: disconnecting a valid connection whose token has no registry entry
leaves both the registry and the connection completely unchanged (the
connection remains valid); and in general, `disconnect` sets its connection
argument from valid to invalid if and only if it erases a registry entry for
that connection's token, which in turn happens if and only if the registry
contents change. -/
theorem disconnect_unregistered_noop (s : signal) (c : connection)
    (hv : c.m_valid = true) (hf : mapFind? c.m_id s.m_listeners = none) :
    signal.disconnect s c = (c, s) ∧
    (signal.disconnect s c).1.m_valid = true ∧
    (∀ (s2 : signal) (c2 : connection),
      ((signal.disconnect s2 c2).1.m_valid = false ∧ c2.m_valid = true) ↔
        (c2.m_valid = true ∧ c2.m_id ∈ keys s2.m_listeners)) ∧
    (∀ (s2 : signal) (c2 : connection),
      (signal.disconnect s2 c2).2.m_listeners ≠ s2.m_listeners ↔
        (c2.m_valid = true ∧ c2.m_id ∈ keys s2.m_listeners)) := by
  have hne := disconnect_not_found s c hf
  refine ⟨hne, by rw [hne]; exact hv, ?_, ?_⟩
  · intro s2 c2
    cases hv2 : c2.m_valid
    · rw [disconnect_invalid s2 c2 hv2]
      simp [hv2]
    · cases hf2 : mapFind? c2.m_id s2.m_listeners with
      | none =>
        rw [disconnect_not_found s2 c2 hf2]
        have hnm : c2.m_id ∉ keys s2.m_listeners :=
          (mapFind?_eq_none_iff _ _).mp hf2
        simp [hv2, hnm]
      | some r2 =>
        rw [disconnect_found s2 c2 r2 hv2 hf2]
        have hmm : c2.m_id ∈ keys s2.m_listeners :=
          mem_keys_of_mapFind?_eq_some hf2
        simp [hv2, hmm, connection.assignNull]
  · intro s2 c2
    cases hv2 : c2.m_valid
    · rw [disconnect_invalid s2 c2 hv2]
      simp [hv2]
    · cases hf2 : mapFind? c2.m_id s2.m_listeners with
      | none =>
        rw [disconnect_not_found s2 c2 hf2]
        have hnm : c2.m_id ∉ keys s2.m_listeners :=
          (mapFind?_eq_none_iff _ _).mp hf2
        simp [hv2, hnm]
      | some r2 =>
        rw [disconnect_found s2 c2 r2 hv2 hf2]
        have hmm : c2.m_id ∈ keys s2.m_listeners :=
          mem_keys_of_mapFind?_eq_some hf2
        have hlen := length_mapErase_of_mem c2.m_id s2.m_listeners hmm
        have hne2 : mapErase c2.m_id s2.m_listeners ≠ s2.m_listeners := by
          intro hEq
          rw [hEq] at hlen
          omega
        simp [hv2, hmm, hne2]

/-- Witness for C9 at a valid connection with token 3 against a registry
holding only token 1: disconnect changes nothing and the connection stays
valid. -/
theorem disconnect_unregistered_noop_witness :
    ((⟨true, 3⟩ : connection).m_valid = true ∧
      mapFind? 3 [(1, [])] = none) ∧
    signal.disconnect (⟨5, [(1, [])]⟩ : signal) ⟨true, 3⟩ =
      (⟨true, 3⟩, (⟨5, [(1, [])]⟩ : signal)) ∧
    (signal.disconnect (⟨5, [(1, [])]⟩ : signal) ⟨true, 3⟩).1.m_valid
      = true := by
  have h := disconnect_unregistered_noop (⟨5, [(1, [])]⟩ : signal) ⟨true, 3⟩
    rfl rfl
  exact ⟨⟨rfl, rfl⟩, h.1, h.2.1⟩

end sig11
